import Mathlib

set_option maxRecDepth 40000

/-!
Verification development for a dense, rectangular numeric matrix engine backed by
a flat, row-major buffer (the `Matrix` class of the repository, one class over a
`Float64Array` with `rows` and `columns` fields).

The embedding below translates every public operation of the class.  A matrix is
a record of the two dimension fields and the flat buffer, rendered as a `List`
over the element type.  Element values are idealised as exact rationals `ℚ` for
the structural claims, whose truth does not depend on rounding; a dedicated
scalar type `JsFloat` with the IEEE 754 special values is used for the claim
about multiplication by the zero scalar, which is exact in IEEE 754 (no
rounding occurs in `x * 0`); and the add-then-subtract round-trip claim, whose
truth does hinge on rounding, is settled over `F64`, a faithful model of
binary64 addition and subtraction (finite doubles as scaled integers, exact
addition followed by round-to-nearest-even and the overflow cutoff), where the
unconditional round-trip fails and an exactness-conditioned version holds.

Methods that throw (`set` with a matrix source, `add`, `subtract`,
`hadamardProduct`, `multiply`) are rendered as `Except`-valued functions; the
source validates shapes before touching any state, so the error branch carries
no mutation.  `set` with a raw array source only logs a console warning on a
length mismatch and then replaces the buffer anyway; the log has no effect on
the matrix state, so the embedding `setList` is total.

Buffer reads `this.array[idx]` are rendered with `List.getD idx 0`.  Within
every theorem below the indices are in range (under the stated shape
hypotheses and the length invariant), where `getD` agrees with the JavaScript
typed-array read.

Imperative loops that fill a fresh buffer slot by slot (`multiply`,
`transpose`) are rendered as the row-major flattening of the table of written
values: the source loops write each slot of the result exactly once, in
exactly the row-major position the flattening lists it at, so the resulting
buffer is the same.
-/

namespace TSMatrix

/-- Shape errors thrown by the class.  `dimensionMismatch` is the error of
`set`, `add`, `subtract` and `hadamardProduct` (message reports both shapes);
`incompatibleDimensions` is the error of `multiply` (message also reports both
shapes). -/
inductive MatrixError where
  | dimensionMismatch (selfRows selfColumns otherRows otherColumns : ℕ)
  | incompatibleDimensions (selfRows selfColumns otherRows otherColumns : ℕ)
deriving DecidableEq

/-- A matrix: the `rows` and `columns` fields and the flat row-major buffer
`array` (the `Float64Array` of the source, with element type abstracted). -/
structure Matrix (α : Type) where
  rows : ℕ
  columns : ℕ
  array : List α
deriving DecidableEq

variable {α : Type}

/-- The constructor: `new Matrix(rows, columns)` allocates a zero-filled buffer
of length `rows * columns`. -/
def Matrix.new (α : Type) [Zero α] (rows columns : ℕ) : Matrix α :=
  ⟨rows, columns, List.replicate (rows * columns) 0⟩

/-- The branch of `set` taking another matrix: on a shape mismatch it throws
`dimensionMismatch` before touching any state, otherwise the buffer becomes a
copy of the source buffer. -/
def Matrix.set (m a : Matrix α) : Except MatrixError (Matrix α) :=
  if m.rows ≠ a.rows ∨ m.columns ≠ a.columns then
    Except.error (MatrixError.dimensionMismatch m.rows m.columns a.rows a.columns)
  else
    Except.ok ⟨m.rows, m.columns, a.array⟩

/-- The branch of `set` taking a raw array or typed array: on a length mismatch
it only emits `console.warn` (no state effect, no throw) and then replaces the
buffer with a copy of the argument regardless; `rows` and `columns` are left
untouched. -/
def Matrix.setList (m : Matrix α) (a : List α) : Matrix α :=
  ⟨m.rows, m.columns, a⟩

/-- The `clone` method: `new Matrix(this.rows, this.columns).set(this.array)`,
which goes through the raw-array branch of `set`. -/
def Matrix.clone [Zero α] (m : Matrix α) : Matrix α :=
  (Matrix.new α m.rows m.columns).setList m.array

/-- The `map` method: `this.array = this.array.map(predicate)`.  The predicate
receives the element value, its flat index and the original buffer, and a new
buffer of the same length collects the results. -/
def Matrix.map [Zero α] (f : α → ℕ → List α → α) (m : Matrix α) : Matrix α :=
  ⟨m.rows, m.columns, (List.range m.array.length).map fun i => f (m.array.getD i 0) i m.array⟩

/-- The `randomize` method: `this.map(() => Math.random())`.  The host random
generator is abstracted as a stream `r`; the element at flat index `i` receives
the i-th drawn value, since `map` visits indices left to right. -/
def Matrix.randomize [Zero α] (r : ℕ → α) (m : Matrix α) : Matrix α :=
  m.map fun _ i _ => r i

/-- The `add` method: shape check first (throwing `dimensionMismatch`), then
`this.array.forEach((_, i) => this.array[i] += a.array[i])`.  Slot `i` is
written once, from its own old value, so the loop is the map below. -/
def Matrix.add [Zero α] [Add α] (m a : Matrix α) : Except MatrixError (Matrix α) :=
  if m.rows ≠ a.rows ∨ m.columns ≠ a.columns then
    Except.error (MatrixError.dimensionMismatch m.rows m.columns a.rows a.columns)
  else
    Except.ok ⟨m.rows, m.columns,
      (List.range m.array.length).map fun i => m.array.getD i 0 + a.array.getD i 0⟩

/-- The `subtract` method, identical to `add` with `-=` in place of `+=`. -/
def Matrix.subtract [Zero α] [Sub α] (m a : Matrix α) : Except MatrixError (Matrix α) :=
  if m.rows ≠ a.rows ∨ m.columns ≠ a.columns then
    Except.error (MatrixError.dimensionMismatch m.rows m.columns a.rows a.columns)
  else
    Except.ok ⟨m.rows, m.columns,
      (List.range m.array.length).map fun i => m.array.getD i 0 - a.array.getD i 0⟩

/-- The `hadamardProduct` method, identical to `add` with `*=` in place of
`+=`. -/
def Matrix.hadamardProduct [Zero α] [Mul α] (m a : Matrix α) : Except MatrixError (Matrix α) :=
  if m.rows ≠ a.rows ∨ m.columns ≠ a.columns then
    Except.error (MatrixError.dimensionMismatch m.rows m.columns a.rows a.columns)
  else
    Except.ok ⟨m.rows, m.columns,
      (List.range m.array.length).map fun i => m.array.getD i 0 * a.array.getD i 0⟩

/-- The `multiplyByScalar` method: `this.array.forEach((_, i) => this.array[i] *= s)`,
each element is replaced by itself times the scalar. -/
def Matrix.multiplyByScalar [Mul α] (m : Matrix α) (s : α) : Matrix α :=
  ⟨m.rows, m.columns, m.array.map fun x => x * s⟩

/-- The `multiply` method: dimension check first (throwing
`incompatibleDimensions`), then the triple nested loop filling
`result[i * a.columns + j]` with the increasing-k accumulation
`value += this.array[i * a.rows + k] * a.array[k * a.columns + j]` for
`k < a.rows`, with `i` outer and `j` middle; finally `this.columns = a.columns`
and the buffer is replaced through the raw-array branch of `set` (whose length
warning never has a state effect).  The loops write slot `i * a.columns + j`
of the fresh `rows * a.columns` buffer exactly once each, in row-major order,
which is the flattening below. -/
def Matrix.multiply [Zero α] [Add α] [Mul α] (m a : Matrix α) : Except MatrixError (Matrix α) :=
  if m.columns ≠ a.rows then
    Except.error (MatrixError.incompatibleDimensions m.rows m.columns a.rows a.columns)
  else
    Except.ok ⟨m.rows, a.columns,
      (List.range m.rows).flatMap fun i =>
        (List.range a.columns).map fun j =>
          (List.range a.rows).foldl
            (fun v k => v + m.array.getD (i * a.rows + k) 0 * a.array.getD (k * a.columns + j) 0) 0⟩

/-- The `transpose` method: a fresh `rows * columns` buffer is filled by the
double loop `result[j * this.rows + i] = this.array[i * this.columns + j]`
(`i` outer over rows, `j` inner over columns); then rows and columns are
swapped and the buffer is replaced through the raw-array branch of `set`.
Every slot `j * rows + i` of the fresh buffer is written exactly once, and
listing the written values with `j` outer and `i` inner is row-major slot
order, which is the flattening below. -/
def Matrix.transpose [Zero α] (m : Matrix α) : Matrix α :=
  ⟨m.columns, m.rows,
    (List.range m.columns).flatMap fun j =>
      (List.range m.rows).map fun i => m.array.getD (i * m.columns + j) 0⟩

/-- The buffer-length invariant of the data model: the flat buffer holds
exactly `rows * columns` elements. -/
def Matrix.wellFormed (m : Matrix α) : Prop :=
  m.array.length = m.rows * m.columns

/-- The state of the receiver after running a throwing method: the new state on
success, the untouched old state when the method threw. -/
def Matrix.after (m : Matrix α) : Except MatrixError (Matrix α) → Matrix α
  | Except.ok r => r
  | Except.error _ => m

/-- Scalar model for the IEEE 754 special-value claims: a double is either
finite (idealised as an exact rational; rounding and overflow of finite
arithmetic are not modelled, and neither is the sign of zero), NaN, positive
infinity or negative infinity. -/
inductive JsFloat where
  | fin (q : ℚ)
  | nan
  | inf
  | neginf
deriving DecidableEq

/-- IEEE 754 multiplication on the special-value model: NaN is absorbing, an
infinity times zero is NaN, an infinity times a nonzero finite value or
another infinity follows the sign rule, and finite times finite is exact.
This is bit-exact IEEE 754 whenever one factor is zero, since `x * 0` never
rounds. -/
def JsFloat.mul : JsFloat → JsFloat → JsFloat
  | JsFloat.nan, _ => JsFloat.nan
  | _, JsFloat.nan => JsFloat.nan
  | JsFloat.inf, JsFloat.inf => JsFloat.inf
  | JsFloat.inf, JsFloat.neginf => JsFloat.neginf
  | JsFloat.neginf, JsFloat.inf => JsFloat.neginf
  | JsFloat.neginf, JsFloat.neginf => JsFloat.inf
  | JsFloat.inf, JsFloat.fin b =>
      if b = 0 then JsFloat.nan else if 0 < b then JsFloat.inf else JsFloat.neginf
  | JsFloat.fin a, JsFloat.inf =>
      if a = 0 then JsFloat.nan else if 0 < a then JsFloat.inf else JsFloat.neginf
  | JsFloat.neginf, JsFloat.fin b =>
      if b = 0 then JsFloat.nan else if 0 < b then JsFloat.neginf else JsFloat.inf
  | JsFloat.fin a, JsFloat.neginf =>
      if a = 0 then JsFloat.nan else if 0 < a then JsFloat.neginf else JsFloat.inf
  | JsFloat.fin a, JsFloat.fin b => JsFloat.fin (a * b)

instance : Mul JsFloat := ⟨JsFloat.mul⟩

instance : Zero JsFloat := ⟨JsFloat.fin 0⟩

/-- One step of a binary bit-length computation: when the running value is at
least 2^s (written 1 <<< s), shift it right by s and add s to the running bit
count. -/
def bitLenStep (s : ℕ) (acc : ℕ × ℕ) : ℕ × ℕ :=
  if 1 <<< s ≤ acc.1 then (acc.1 >>> s, acc.2 + s) else acc

/-- Bit length of a natural number below 2^4096, by binary descent over the
shift amounts 2048 down to 1 (a constant twelve steps over shifts and
comparisons, so the kernel evaluates it directly); the range covers every
magnitude arising from binary64 values, whose scaled integers stay below
2^2100. -/
def bitLength (n : ℕ) : ℕ :=
  let r := [2048, 1024, 512, 256, 128, 64, 32, 16, 8, 4, 2, 1].foldl
    (fun acc s => bitLenStep s acc) (n, 0)
  if r.1 = 0 then 0 else r.2 + 1

/-- Round-to-nearest, ties-to-even onto a 53-bit significand, on integers
counted in units of 2^(-1074) (the unit in the last place of the binary64
subnormal range).  A magnitude of at most 53 bits is exactly representable; a
longer magnitude of L bits is rounded to the nearest multiple of 2^(L - 53)
(written 1 <<< (L - 53)), ties going to the even multiple, symmetrically for
negative values.  This is the binary64 significand rule with an unbounded
exponent; the overflow cutoff is applied by the caller. -/
def roundSig (k : ℤ) : ℤ :=
  let n := k.natAbs
  let L := bitLength n
  if L ≤ 53 then k
  else
    let p : ℕ := 1 <<< (L - 53)
    let q := n / p
    let r := n % p
    let half := p / 2
    let q2 := if r < half then q else if half < r then q + 1 else if q % 2 = 0 then q else q + 1
    if k < 0 then -((q2 * p : ℕ) : ℤ) else ((q2 * p : ℕ) : ℤ)

/-- Scalar model for the IEEE 754 binary64 addition and subtraction claims: a
double is NaN, one of the two infinities, or a finite value recorded as its
integer multiple of 2^(-1074).  Every finite double is such a multiple,
uniquely, so finite values compare by integer equality (the sign of zero is
collapsed, as under JavaScript number equality).  The exact sum or difference
of two finite doubles is again an integer multiple of 2^(-1074), so binary64
addition is modelled exactly: add the scaled integers, round to a 53-bit
significand with ties to even, and overflow to an infinity at magnitude
2^1024 (scaled: 2^2098, written 1 <<< 2098). -/
inductive F64 where
  | nan
  | inf
  | neginf
  | fin (k : ℤ)
deriving DecidableEq

/-- IEEE 754 binary64 addition on the scaled-integer model: NaN absorbs,
opposite infinities give NaN, an infinity absorbs finite values, and finite
plus finite is exact integer addition followed by round-to-nearest-even and
the overflow check. -/
def F64.add : F64 → F64 → F64
  | F64.nan, _ => F64.nan
  | _, F64.nan => F64.nan
  | F64.inf, F64.neginf => F64.nan
  | F64.neginf, F64.inf => F64.nan
  | F64.inf, _ => F64.inf
  | _, F64.inf => F64.inf
  | F64.neginf, _ => F64.neginf
  | _, F64.neginf => F64.neginf
  | F64.fin a, F64.fin b =>
      if ((1 <<< 2098 : ℕ) : ℤ) ≤ |roundSig (a + b)| then
        (if roundSig (a + b) < 0 then F64.neginf else F64.inf)
      else F64.fin (roundSig (a + b))

/-- IEEE 754 negation, which is exact. -/
def F64.neg : F64 → F64
  | F64.nan => F64.nan
  | F64.inf => F64.neginf
  | F64.neginf => F64.inf
  | F64.fin k => F64.fin (-k)

/-- IEEE 754 binary64 subtraction: addition of the negation. -/
def F64.sub (x y : F64) : F64 := F64.add x (F64.neg y)

instance : Add F64 := ⟨F64.add⟩

instance : Sub F64 := ⟨F64.sub⟩

instance : Zero F64 := ⟨F64.fin 0⟩

/-- A finite, representable double: rounding fixes its scaled integer and the
magnitude is at most the largest finite double, scaled:
(2^53 - 1) * 2^2045, written with shifts. -/
def F64.finRep : F64 → Prop
  | F64.fin k => roundSig k = k ∧ |k| ≤ ((((1 <<< 53) - 1) * (1 <<< 2045) : ℕ) : ℤ)
  | _ => False

/-- Exactness of one element addition: both operands are finite and the exact
sum needs no rounding and does not overflow. -/
def F64.exactAdd : F64 → F64 → Prop
  | F64.fin p, F64.fin q => roundSig (p + q) = p + q ∧ |p + q| < ((1 <<< 2098 : ℕ) : ℤ)
  | _, _ => False

/-- Length of a row-major flattening of an `r × w` table of values. -/
theorem flatTable_length (r w : ℕ) (f : ℕ → ℕ → α) :
    ((List.range r).flatMap fun i => (List.range w).map (f i)).length = r * w := by
  induction r with
  | zero => simp
  | succ p ihp =>
      rw [List.range_succ, List.flatMap_append, List.length_append, ihp]
      simp [Nat.succ_mul]

/-- Element lookup in a map over a range of indices. -/
theorem getD_map_range (w j : ℕ) (g : ℕ → α) (d : α) (hj : j < w) :
    (((List.range w).map g).getD j d) = g j := by
  have hj2 : j < ((List.range w).map g).length := by simpa using hj
  rw [List.getD_eq_getElem _ d hj2]
  simp only [List.getElem_map, List.getElem_range]

/-- Element lookup in a row-major flattening of an `r × w` table of values. -/
theorem flatTable_getD (w : ℕ) (f : ℕ → ℕ → α) (d : α) :
    ∀ r i j, i < r → j < w →
      (((List.range r).flatMap fun i => (List.range w).map (f i)).getD (i * w + j) d) = f i j := by
  intro r
  induction r with
  | zero => intro i j hi _; exact absurd hi (Nat.not_lt_zero i)
  | succ n ih =>
      intro i j hi hj
      rw [List.range_succ, List.flatMap_append]
      by_cases h : i < n
      · rw [List.getD_append]
        · exact ih i j h hj
        · rw [flatTable_length]
          calc i * w + j < i * w + w := Nat.add_lt_add_left hj _
            _ = (i + 1) * w := (Nat.succ_mul i w).symm
            _ ≤ n * w := Nat.mul_le_mul_right w h
      · have hin : i = n := by omega
        subst hin
        rw [List.getD_append_right]
        · rw [flatTable_length]
          simp only [List.flatMap_cons, List.flatMap_nil, List.append_nil,
            Nat.add_sub_cancel_left]
          exact getD_map_range w j (f i) d hj
        · rw [flatTable_length]; exact Nat.le_add_right _ _

/-- Reading a list back element by element reproduces the list. -/
theorem map_getD_range_self (l : List α) (d : α) :
    ((List.range l.length).map fun i => l.getD i d) = l := by
  apply List.ext_getElem
  · simp
  · intro n h1 h2
    simp only [List.getElem_map, List.getElem_range]
    exact List.getD_eq_getElem l d h2

/-- Flattening the table of reads of an `r * w`-element list reproduces the
list. -/
theorem flatTable_recover (l : List α) (r w : ℕ) (d : α) (h : l.length = r * w) :
    ((List.range r).flatMap fun i => (List.range w).map fun j => l.getD (i * w + j) d) = l := by
  apply List.ext_getElem
  · rw [flatTable_length, h]
  · intro n h1 h2
    have hn : n < r * w := by rw [← h]; exact h2
    have hw : 0 < w := by
      rcases Nat.eq_zero_or_pos w with hw0 | hw0
      · subst hw0; simp at hn
      · exact hw0
    have hj : n % w < w := Nat.mod_lt _ hw
    have hi : n / w < r := Nat.div_lt_of_lt_mul (by rw [Nat.mul_comm] at hn; exact hn)
    have hsplit : n / w * w + n % w = n := by
      rw [Nat.mul_comm]; exact Nat.div_add_mod n w
    have hmain := flatTable_getD w (fun i j => l.getD (i * w + j) d) d r (n / w) (n % w) hi hj
    rw [hsplit] at hmain
    rw [← List.getD_eq_getElem _ d h1, hmain]
    show l.getD (n / w * w + n % w) d = l[n]
    rw [hsplit]
    exact List.getD_eq_getElem l d h2

/-- Increasing-index accumulation from zero is the finite sum. -/
theorem foldl_add_range (n : ℕ) (g : ℕ → ℚ) :
    (List.range n).foldl (fun v k => v + g k) 0 = ∑ k ∈ Finset.range n, g k := by
  induction n with
  | zero => simp
  | succ m ih => rw [List.range_succ, List.foldl_append, Finset.sum_range_succ, ih]; rfl

/-- C1: whenever `self.columns = a.rows`, `multiply(a)` succeeds and overwrites
self with the standard matrix product: the result has `self.rows` rows and
`a.columns` columns, its buffer has length `self.rows * a.columns`, and the
element at flat index `i * a.columns + j` is the increasing-k accumulation of
`self[i * columns + k] * a[k * a.columns + j]` for `k` below the old column
count, which equals the standard dot-product sum. -/
theorem multiply_spec (m a : Matrix ℚ) (hc : m.columns = a.rows)
    (_hm : m.wellFormed) (_ha : a.wellFormed) :
    ∃ r : Matrix ℚ, m.multiply a = Except.ok r ∧ r.rows = m.rows ∧ r.columns = a.columns ∧
      r.array.length = m.rows * a.columns ∧
      ∀ i j, i < m.rows → j < a.columns →
        r.array.getD (i * a.columns + j) 0 =
          (List.range m.columns).foldl
            (fun v k => v + m.array.getD (i * m.columns + k) 0 *
              a.array.getD (k * a.columns + j) 0) 0 ∧
        r.array.getD (i * a.columns + j) 0 =
          ∑ k ∈ Finset.range m.columns,
            m.array.getD (i * m.columns + k) 0 * a.array.getD (k * a.columns + j) 0 := by
  have hne : ¬ m.columns ≠ a.rows := by simp [hc]
  refine ⟨⟨m.rows, a.columns,
    (List.range m.rows).flatMap fun i =>
      (List.range a.columns).map fun j =>
        (List.range a.rows).foldl
          (fun v k => v + m.array.getD (i * a.rows + k) 0 *
            a.array.getD (k * a.columns + j) 0) 0⟩, ?_, rfl, rfl, ?_, ?_⟩
  · simp only [Matrix.multiply, if_neg hne]
  · exact flatTable_length _ _ _
  · intro i j hi hj
    have he := flatTable_getD a.columns
      (fun i j => (List.range a.rows).foldl
        (fun v k => v + m.array.getD (i * a.rows + k) 0 *
          a.array.getD (k * a.columns + j) 0) 0) 0 m.rows i j hi hj
    constructor
    · rw [he]
      show (List.range a.rows).foldl
          (fun v k => v + m.array.getD (i * a.rows + k) 0 *
            a.array.getD (k * a.columns + j) 0) 0 =
        (List.range m.columns).foldl
          (fun v k => v + m.array.getD (i * m.columns + k) 0 *
            a.array.getD (k * a.columns + j) 0) 0
      rw [← hc]
    · rw [he]
      show (List.range a.rows).foldl
          (fun v k => v + m.array.getD (i * a.rows + k) 0 *
            a.array.getD (k * a.columns + j) 0) 0 =
        ∑ k ∈ Finset.range m.columns,
          m.array.getD (i * m.columns + k) 0 * a.array.getD (k * a.columns + j) 0
      rw [← hc, foldl_add_range]

/-- C1 witness: the spec test case, a 2 by 3 matrix times a 3 by 2 matrix, has
compatible shapes and well-formed buffers, and the theorem instantiates. -/
theorem multiply_spec_witness :
    (Matrix.mk 2 3 [(1:ℚ), 2, 3, 4, 5, 6]).columns =
      (Matrix.mk 3 2 [(7:ℚ), 8, 9, 10, 11, 12]).rows ∧
    (Matrix.mk 2 3 [(1:ℚ), 2, 3, 4, 5, 6]).wellFormed ∧
    (Matrix.mk 3 2 [(7:ℚ), 8, 9, 10, 11, 12]).wellFormed ∧
    (∃ r : Matrix ℚ,
      (Matrix.mk 2 3 [(1:ℚ), 2, 3, 4, 5, 6]).multiply
        (Matrix.mk 3 2 [(7:ℚ), 8, 9, 10, 11, 12]) = Except.ok r ∧
      r.rows = (Matrix.mk 2 3 [(1:ℚ), 2, 3, 4, 5, 6]).rows ∧
      r.columns = (Matrix.mk 3 2 [(7:ℚ), 8, 9, 10, 11, 12]).columns ∧
      r.array.length = (Matrix.mk 2 3 [(1:ℚ), 2, 3, 4, 5, 6]).rows *
        (Matrix.mk 3 2 [(7:ℚ), 8, 9, 10, 11, 12]).columns ∧
      ∀ i j, i < (Matrix.mk 2 3 [(1:ℚ), 2, 3, 4, 5, 6]).rows →
        j < (Matrix.mk 3 2 [(7:ℚ), 8, 9, 10, 11, 12]).columns →
        r.array.getD (i * (Matrix.mk 3 2 [(7:ℚ), 8, 9, 10, 11, 12]).columns + j) 0 =
          (List.range (Matrix.mk 2 3 [(1:ℚ), 2, 3, 4, 5, 6]).columns).foldl
            (fun v k => v +
              (Matrix.mk 2 3 [(1:ℚ), 2, 3, 4, 5, 6]).array.getD
                (i * (Matrix.mk 2 3 [(1:ℚ), 2, 3, 4, 5, 6]).columns + k) 0 *
              (Matrix.mk 3 2 [(7:ℚ), 8, 9, 10, 11, 12]).array.getD
                (k * (Matrix.mk 3 2 [(7:ℚ), 8, 9, 10, 11, 12]).columns + j) 0) 0 ∧
        r.array.getD (i * (Matrix.mk 3 2 [(7:ℚ), 8, 9, 10, 11, 12]).columns + j) 0 =
          ∑ k ∈ Finset.range (Matrix.mk 2 3 [(1:ℚ), 2, 3, 4, 5, 6]).columns,
            (Matrix.mk 2 3 [(1:ℚ), 2, 3, 4, 5, 6]).array.getD
              (i * (Matrix.mk 2 3 [(1:ℚ), 2, 3, 4, 5, 6]).columns + k) 0 *
            (Matrix.mk 3 2 [(7:ℚ), 8, 9, 10, 11, 12]).array.getD
              (k * (Matrix.mk 3 2 [(7:ℚ), 8, 9, 10, 11, 12]).columns + j) 0) :=
  ⟨rfl, rfl, rfl, multiply_spec _ _ rfl rfl rfl⟩

/-- C2: for every well-formed matrix, `transpose()` swaps the row and column
fields and replaces the buffer with one of the same total length whose element
at flat index `j * rows + i` is the old element at flat index
`i * columns + j`, for every `i < rows` and `j < columns`. -/
theorem transpose_spec (m : Matrix ℚ) (hm : m.wellFormed) :
    m.transpose.rows = m.columns ∧ m.transpose.columns = m.rows ∧
    m.transpose.array.length = m.array.length ∧
    ∀ i j, i < m.rows → j < m.columns →
      m.transpose.array.getD (j * m.rows + i) 0 = m.array.getD (i * m.columns + j) 0 := by
  refine ⟨rfl, rfl, ?_, ?_⟩
  · show ((List.range m.columns).flatMap fun j =>
        (List.range m.rows).map fun i => m.array.getD (i * m.columns + j) 0).length =
      m.array.length
    rw [flatTable_length, hm, Nat.mul_comm]
  · intro i j hi hj
    exact flatTable_getD m.rows
      (fun j i => m.array.getD (i * m.columns + j) 0) 0 m.columns j i hj hi

/-- C2 witness: the spec test case, the transpose of the 2 by 3 matrix
`[[1,2,3],[4,5,6]]`. -/
theorem transpose_spec_witness :
    (Matrix.mk 2 3 [(1:ℚ), 2, 3, 4, 5, 6]).wellFormed ∧
    ((Matrix.mk 2 3 [(1:ℚ), 2, 3, 4, 5, 6]).transpose.rows =
      (Matrix.mk 2 3 [(1:ℚ), 2, 3, 4, 5, 6]).columns ∧
    (Matrix.mk 2 3 [(1:ℚ), 2, 3, 4, 5, 6]).transpose.columns =
      (Matrix.mk 2 3 [(1:ℚ), 2, 3, 4, 5, 6]).rows ∧
    (Matrix.mk 2 3 [(1:ℚ), 2, 3, 4, 5, 6]).transpose.array.length =
      (Matrix.mk 2 3 [(1:ℚ), 2, 3, 4, 5, 6]).array.length ∧
    ∀ i j, i < (Matrix.mk 2 3 [(1:ℚ), 2, 3, 4, 5, 6]).rows →
      j < (Matrix.mk 2 3 [(1:ℚ), 2, 3, 4, 5, 6]).columns →
      (Matrix.mk 2 3 [(1:ℚ), 2, 3, 4, 5, 6]).transpose.array.getD
          (j * (Matrix.mk 2 3 [(1:ℚ), 2, 3, 4, 5, 6]).rows + i) 0 =
        (Matrix.mk 2 3 [(1:ℚ), 2, 3, 4, 5, 6]).array.getD
          (i * (Matrix.mk 2 3 [(1:ℚ), 2, 3, 4, 5, 6]).columns + j) 0) :=
  ⟨rfl, transpose_spec _ rfl⟩

/-- Congruence for flatMap over the members of a list. -/
theorem flatMap_congr_mem {β γ : Type} (l : List β) (f g : β → List γ)
    (h : ∀ b ∈ l, f b = g b) : l.flatMap f = l.flatMap g := by
  induction l with
  | nil => rfl
  | cons x xs ih =>
      simp only [List.flatMap_cons]
      rw [h x (List.mem_cons_self x xs), ih fun b hb => h b (List.mem_cons_of_mem x hb)]

/-- C6: applying `transpose` twice restores the original matrix exactly, shape
and every buffer element, for every well-formed matrix of any shape. -/
theorem transpose_transpose (m : Matrix ℚ) (hm : m.wellFormed) :
    m.transpose.transpose = m := by
  cases m with
  | mk rows columns array =>
      have hm2 : array.length = rows * columns := hm
      show Matrix.mk rows columns
          ((List.range rows).flatMap fun j => (List.range columns).map fun i =>
            ((List.range columns).flatMap fun jj => (List.range rows).map fun ii =>
              array.getD (ii * columns + jj) 0).getD (i * rows + j) 0) =
        Matrix.mk rows columns array
      refine congrArg (Matrix.mk rows columns) ?_
      have hstep : ∀ j ∈ List.range rows,
          ((List.range columns).map fun i =>
            ((List.range columns).flatMap fun jj => (List.range rows).map fun ii =>
              array.getD (ii * columns + jj) 0).getD (i * rows + j) 0) =
          ((List.range columns).map fun i => array.getD (j * columns + i) 0) := by
        intro j hj
        rw [List.mem_range] at hj
        apply List.map_congr_left
        intro i hi
        rw [List.mem_range] at hi
        exact flatTable_getD rows (fun p q => array.getD (q * columns + p) 0) 0 columns i j hi hj
      rw [flatMap_congr_mem _ _ _ hstep]
      exact flatTable_recover array rows columns 0 hm2

/-- C6 witness: the double transpose of the 2 by 3 matrix `[[1,2,3],[4,5,6]]`
is the matrix itself. -/
theorem transpose_transpose_witness :
    (Matrix.mk 2 3 [(1:ℚ), 2, 3, 4, 5, 6]).wellFormed ∧
    (Matrix.mk 2 3 [(1:ℚ), 2, 3, 4, 5, 6]).transpose.transpose =
      Matrix.mk 2 3 [(1:ℚ), 2, 3, 4, 5, 6] :=
  ⟨rfl, transpose_transpose _ rfl⟩

/-- C3: when the two shapes agree, `add`, `subtract` and `hadamardProduct`
succeed, keep the shape and the buffer length, and combine the buffers
pointwise with `+`, `-` and `*` respectively at every flat index. -/
theorem elementwise_spec (m a : Matrix ℚ) (hr : m.rows = a.rows) (hc : m.columns = a.columns) :
    (∃ r : Matrix ℚ, m.add a = Except.ok r ∧ r.rows = m.rows ∧ r.columns = m.columns ∧
      r.array.length = m.array.length ∧
      ∀ i, i < m.array.length →
        r.array.getD i 0 = m.array.getD i 0 + a.array.getD i 0) ∧
    (∃ r : Matrix ℚ, m.subtract a = Except.ok r ∧ r.rows = m.rows ∧ r.columns = m.columns ∧
      r.array.length = m.array.length ∧
      ∀ i, i < m.array.length →
        r.array.getD i 0 = m.array.getD i 0 - a.array.getD i 0) ∧
    (∃ r : Matrix ℚ, m.hadamardProduct a = Except.ok r ∧ r.rows = m.rows ∧ r.columns = m.columns ∧
      r.array.length = m.array.length ∧
      ∀ i, i < m.array.length →
        r.array.getD i 0 = m.array.getD i 0 * a.array.getD i 0) := by
  have hne : ¬ (m.rows ≠ a.rows ∨ m.columns ≠ a.columns) := by simp [hr, hc]
  refine ⟨⟨⟨m.rows, m.columns,
      (List.range m.array.length).map fun i => m.array.getD i 0 + a.array.getD i 0⟩,
      ?_, rfl, rfl, ?_, ?_⟩,
    ⟨⟨m.rows, m.columns,
      (List.range m.array.length).map fun i => m.array.getD i 0 - a.array.getD i 0⟩,
      ?_, rfl, rfl, ?_, ?_⟩,
    ⟨⟨m.rows, m.columns,
      (List.range m.array.length).map fun i => m.array.getD i 0 * a.array.getD i 0⟩,
      ?_, rfl, rfl, ?_, ?_⟩⟩
  · simp only [Matrix.add, if_neg hne]
  · simp
  · intro i hi; exact getD_map_range _ i _ 0 hi
  · simp only [Matrix.subtract, if_neg hne]
  · simp
  · intro i hi; exact getD_map_range _ i _ 0 hi
  · simp only [Matrix.hadamardProduct, if_neg hne]
  · simp
  · intro i hi; exact getD_map_range _ i _ 0 hi

/-- C3 witness: two 1 by 2 matrices of equal shape instantiate the theorem. -/
theorem elementwise_spec_witness :
    (Matrix.mk 1 2 [(1:ℚ), 2]).rows = (Matrix.mk 1 2 [(3:ℚ), 4]).rows ∧
    (Matrix.mk 1 2 [(1:ℚ), 2]).columns = (Matrix.mk 1 2 [(3:ℚ), 4]).columns ∧
    ((∃ r : Matrix ℚ, (Matrix.mk 1 2 [(1:ℚ), 2]).add (Matrix.mk 1 2 [(3:ℚ), 4]) = Except.ok r ∧
      r.rows = (Matrix.mk 1 2 [(1:ℚ), 2]).rows ∧
      r.columns = (Matrix.mk 1 2 [(1:ℚ), 2]).columns ∧
      r.array.length = (Matrix.mk 1 2 [(1:ℚ), 2]).array.length ∧
      ∀ i, i < (Matrix.mk 1 2 [(1:ℚ), 2]).array.length →
        r.array.getD i 0 = (Matrix.mk 1 2 [(1:ℚ), 2]).array.getD i 0 +
          (Matrix.mk 1 2 [(3:ℚ), 4]).array.getD i 0) ∧
    (∃ r : Matrix ℚ, (Matrix.mk 1 2 [(1:ℚ), 2]).subtract (Matrix.mk 1 2 [(3:ℚ), 4]) = Except.ok r ∧
      r.rows = (Matrix.mk 1 2 [(1:ℚ), 2]).rows ∧
      r.columns = (Matrix.mk 1 2 [(1:ℚ), 2]).columns ∧
      r.array.length = (Matrix.mk 1 2 [(1:ℚ), 2]).array.length ∧
      ∀ i, i < (Matrix.mk 1 2 [(1:ℚ), 2]).array.length →
        r.array.getD i 0 = (Matrix.mk 1 2 [(1:ℚ), 2]).array.getD i 0 -
          (Matrix.mk 1 2 [(3:ℚ), 4]).array.getD i 0) ∧
    (∃ r : Matrix ℚ,
      (Matrix.mk 1 2 [(1:ℚ), 2]).hadamardProduct (Matrix.mk 1 2 [(3:ℚ), 4]) = Except.ok r ∧
      r.rows = (Matrix.mk 1 2 [(1:ℚ), 2]).rows ∧
      r.columns = (Matrix.mk 1 2 [(1:ℚ), 2]).columns ∧
      r.array.length = (Matrix.mk 1 2 [(1:ℚ), 2]).array.length ∧
      ∀ i, i < (Matrix.mk 1 2 [(1:ℚ), 2]).array.length →
        r.array.getD i 0 = (Matrix.mk 1 2 [(1:ℚ), 2]).array.getD i 0 *
          (Matrix.mk 1 2 [(3:ℚ), 4]).array.getD i 0)) :=
  ⟨rfl, rfl, elementwise_spec _ _ rfl rfl⟩

/-- Failure behaviour of a shape-guarded method body: it throws exactly when
the guard holds, the thrown error is the guard's error value, and a throw
leaves the receiver untouched. -/
theorem except_guard_cases {c : Prop} [Decidable c] {e : MatrixError} {v : Matrix ℚ}
    (m : Matrix ℚ) :
    ((∃ x, (if c then Except.error e else Except.ok v) = Except.error x) ↔ c) ∧
    (c → (if c then Except.error e else Except.ok v) = Except.error e ∧
      m.after (if c then Except.error e else Except.ok v) = m) := by
  by_cases h : c
  · refine ⟨⟨fun _ => h, fun _ => ⟨e, by rw [if_pos h]⟩⟩, fun _ => ⟨by rw [if_pos h], ?_⟩⟩
    rw [if_pos h]; rfl
  · refine ⟨⟨fun hx => ?_, fun hc => absurd hc h⟩, fun hc => absurd hc h⟩
    rcases hx with ⟨x, hx⟩
    rw [if_neg h] at hx
    exact absurd hx (by simp)

/-- C4: `set` with a matrix source, `add`, `subtract` and `hadamardProduct`
throw exactly when the two shapes differ, the error is `dimensionMismatch`
carrying both shapes, and on a throw the receiver keeps its rows, columns and
buffer (the guard runs before any mutation). -/
theorem dimension_mismatch_spec (m a : Matrix ℚ) :
    (((∃ x, m.set a = Except.error x) ↔ (m.rows ≠ a.rows ∨ m.columns ≠ a.columns)) ∧
      ((m.rows ≠ a.rows ∨ m.columns ≠ a.columns) →
        m.set a = Except.error
          (MatrixError.dimensionMismatch m.rows m.columns a.rows a.columns) ∧
        m.after (m.set a) = m)) ∧
    (((∃ x, m.add a = Except.error x) ↔ (m.rows ≠ a.rows ∨ m.columns ≠ a.columns)) ∧
      ((m.rows ≠ a.rows ∨ m.columns ≠ a.columns) →
        m.add a = Except.error
          (MatrixError.dimensionMismatch m.rows m.columns a.rows a.columns) ∧
        m.after (m.add a) = m)) ∧
    (((∃ x, m.subtract a = Except.error x) ↔ (m.rows ≠ a.rows ∨ m.columns ≠ a.columns)) ∧
      ((m.rows ≠ a.rows ∨ m.columns ≠ a.columns) →
        m.subtract a = Except.error
          (MatrixError.dimensionMismatch m.rows m.columns a.rows a.columns) ∧
        m.after (m.subtract a) = m)) ∧
    (((∃ x, m.hadamardProduct a = Except.error x) ↔
        (m.rows ≠ a.rows ∨ m.columns ≠ a.columns)) ∧
      ((m.rows ≠ a.rows ∨ m.columns ≠ a.columns) →
        m.hadamardProduct a = Except.error
          (MatrixError.dimensionMismatch m.rows m.columns a.rows a.columns) ∧
        m.after (m.hadamardProduct a) = m)) := by
  refine ⟨?_, ?_, ?_, ?_⟩
  · simp only [Matrix.set]; exact except_guard_cases m
  · simp only [Matrix.add]; exact except_guard_cases m
  · simp only [Matrix.subtract]; exact except_guard_cases m
  · simp only [Matrix.hadamardProduct]; exact except_guard_cases m

/-- C4 witness: a 2 by 3 and a 3 by 2 matrix mismatch, each of the four
operations throws `dimensionMismatch` with both shapes and the receiver is
untouched. -/
theorem dimension_mismatch_spec_witness :
    ((Matrix.mk 2 3 [(1:ℚ), 2, 3, 4, 5, 6]).set (Matrix.mk 3 2 [(7:ℚ), 8, 9, 10, 11, 12]) =
      Except.error (MatrixError.dimensionMismatch 2 3 3 2) ∧
      (Matrix.mk 2 3 [(1:ℚ), 2, 3, 4, 5, 6]).after
        ((Matrix.mk 2 3 [(1:ℚ), 2, 3, 4, 5, 6]).set (Matrix.mk 3 2 [(7:ℚ), 8, 9, 10, 11, 12])) =
        Matrix.mk 2 3 [(1:ℚ), 2, 3, 4, 5, 6]) ∧
    ((Matrix.mk 2 3 [(1:ℚ), 2, 3, 4, 5, 6]).add (Matrix.mk 3 2 [(7:ℚ), 8, 9, 10, 11, 12]) =
      Except.error (MatrixError.dimensionMismatch 2 3 3 2) ∧
      (Matrix.mk 2 3 [(1:ℚ), 2, 3, 4, 5, 6]).after
        ((Matrix.mk 2 3 [(1:ℚ), 2, 3, 4, 5, 6]).add (Matrix.mk 3 2 [(7:ℚ), 8, 9, 10, 11, 12])) =
        Matrix.mk 2 3 [(1:ℚ), 2, 3, 4, 5, 6]) ∧
    ((Matrix.mk 2 3 [(1:ℚ), 2, 3, 4, 5, 6]).subtract (Matrix.mk 3 2 [(7:ℚ), 8, 9, 10, 11, 12]) =
      Except.error (MatrixError.dimensionMismatch 2 3 3 2) ∧
      (Matrix.mk 2 3 [(1:ℚ), 2, 3, 4, 5, 6]).after
        ((Matrix.mk 2 3 [(1:ℚ), 2, 3, 4, 5, 6]).subtract
          (Matrix.mk 3 2 [(7:ℚ), 8, 9, 10, 11, 12])) =
        Matrix.mk 2 3 [(1:ℚ), 2, 3, 4, 5, 6]) ∧
    ((Matrix.mk 2 3 [(1:ℚ), 2, 3, 4, 5, 6]).hadamardProduct
        (Matrix.mk 3 2 [(7:ℚ), 8, 9, 10, 11, 12]) =
      Except.error (MatrixError.dimensionMismatch 2 3 3 2) ∧
      (Matrix.mk 2 3 [(1:ℚ), 2, 3, 4, 5, 6]).after
        ((Matrix.mk 2 3 [(1:ℚ), 2, 3, 4, 5, 6]).hadamardProduct
          (Matrix.mk 3 2 [(7:ℚ), 8, 9, 10, 11, 12])) =
        Matrix.mk 2 3 [(1:ℚ), 2, 3, 4, 5, 6]) :=
  ⟨(dimension_mismatch_spec _ _).1.2 (by decide),
    (dimension_mismatch_spec _ _).2.1.2 (by decide),
    (dimension_mismatch_spec _ _).2.2.1.2 (by decide),
    (dimension_mismatch_spec _ _).2.2.2.2 (by decide)⟩

/-- C5: `multiply` throws exactly when `self.columns` differs from `a.rows`,
the error is `incompatibleDimensions` carrying both shapes, and on a throw the
receiver keeps its rows, columns and buffer. -/
theorem multiply_error_spec (m a : Matrix ℚ) :
    ((∃ x, m.multiply a = Except.error x) ↔ m.columns ≠ a.rows) ∧
    (m.columns ≠ a.rows →
      m.multiply a = Except.error
        (MatrixError.incompatibleDimensions m.rows m.columns a.rows a.columns) ∧
      m.after (m.multiply a) = m) := by
  simp only [Matrix.multiply]
  exact except_guard_cases m

/-- C5 witness: a 2 by 3 matrix times a 2 by 2 matrix throws
`incompatibleDimensions` and the receiver is untouched. -/
theorem multiply_error_spec_witness :
    (Matrix.mk 2 3 [(1:ℚ), 2, 3, 4, 5, 6]).multiply (Matrix.mk 2 2 [(1:ℚ), 0, 0, 1]) =
      Except.error (MatrixError.incompatibleDimensions 2 3 2 2) ∧
    (Matrix.mk 2 3 [(1:ℚ), 2, 3, 4, 5, 6]).after
      ((Matrix.mk 2 3 [(1:ℚ), 2, 3, 4, 5, 6]).multiply (Matrix.mk 2 2 [(1:ℚ), 0, 0, 1])) =
      Matrix.mk 2 3 [(1:ℚ), 2, 3, 4, 5, 6] :=
  (multiply_error_spec _ _).2 (by decide)

/-- Extraction from an exact element addition: both operands are finite and
the stated rounding and bound facts hold. -/
theorem exactAdd_fin {x y : F64} (h : F64.exactAdd x y) :
    ∃ p q, x = F64.fin p ∧ y = F64.fin q ∧
      roundSig (p + q) = p + q ∧ |p + q| < ((1 <<< 2098 : ℕ) : ℤ) := by
  cases x <;> cases y <;> first
    | exact h.elim
    | exact ⟨_, _, rfl, rfl, h.1, h.2⟩

/-- A binary64 sum that needs no rounding is inverted by the matching
binary64 subtraction: for a representable double p and an exact,
non-overflowing sum p + q, computing (p + q) - q gives back p. -/
theorem F64_add_sub_exact (p q : ℤ) (hp : roundSig p = p)
    (hpb : |p| ≤ ((((1 <<< 53) - 1) * (1 <<< 2045) : ℕ) : ℤ))
    (hs : roundSig (p + q) = p + q) (hsb : |p + q| < ((1 <<< 2098 : ℕ) : ℤ)) :
    F64.sub (F64.add (F64.fin p) (F64.fin q)) (F64.fin q) = F64.fin p := by
  have hmax : ((((1 <<< 53) - 1) * (1 <<< 2045) : ℕ) : ℤ) < ((1 <<< 2098 : ℕ) : ℤ) := by
    decide
  have hadd : F64.add (F64.fin p) (F64.fin q) = F64.fin (p + q) := by
    show (if ((1 <<< 2098 : ℕ) : ℤ) ≤ |roundSig (p + q)| then
        (if roundSig (p + q) < 0 then F64.neginf else F64.inf)
      else F64.fin (roundSig (p + q))) = F64.fin (p + q)
    rw [hs, if_neg (not_le.mpr hsb)]
  rw [hadd]
  show (if ((1 <<< 2098 : ℕ) : ℤ) ≤ |roundSig (p + q + -q)| then
      (if roundSig (p + q + -q) < 0 then F64.neginf else F64.inf)
    else F64.fin (roundSig (p + q + -q))) = F64.fin p
  have hpq : p + q + -q = p := by ring
  rw [hpq, hp, if_neg (not_le.mpr (lt_of_le_of_lt hpb hmax))]

/-- One buffer element through the round-trip: a finite representable element
plus an exactly-representable sum, minus the addend again, is restored. -/
theorem F64_roundtrip_elem (x y : F64) (hm2 : F64.finRep x) (hs2 : F64.exactAdd x y) :
    x + y - y = x := by
  obtain ⟨p, q, hx, hy, he1, he2⟩ := exactAdd_fin hs2
  subst hx
  subst hy
  show F64.sub (F64.add (F64.fin p) (F64.fin q)) (F64.fin q) = F64.fin p
  exact F64_add_sub_exact p q hm2.1 hm2.2 he1 he2

/-- C7 counterexample: over binary64 doubles the add-then-subtract round-trip
fails as a general law.  The receiver holds the double 2^(-1074), the
smallest subnormal (scaled integer 1), and the argument holds the double
2^(-1021) (scaled integer 2^53).  The two shapes agree, yet the exact sum
2^53 + 1 in scaled units needs 54 bits, falls exactly halfway between the two
neighbouring doubles and rounds to the even one, 2^53; the subtraction then
gives exactly 0, so the chained result is the zero matrix, not the
original. -/
theorem add_subtract_roundtrip_cex :
    (Matrix.mk 1 1 [F64.fin 1]).rows = (Matrix.mk 1 1 [F64.fin (2 ^ 53)]).rows ∧
    (Matrix.mk 1 1 [F64.fin 1]).columns = (Matrix.mk 1 1 [F64.fin (2 ^ 53)]).columns ∧
    Except.bind ((Matrix.mk 1 1 [F64.fin 1]).clone.add (Matrix.mk 1 1 [F64.fin (2 ^ 53)]))
      (fun r => r.subtract (Matrix.mk 1 1 [F64.fin (2 ^ 53)])) =
      Except.ok (Matrix.mk 1 1 [F64.fin 0]) ∧
    Matrix.mk 1 1 [F64.fin 0] ≠ Matrix.mk 1 1 [F64.fin 1] := by
  refine ⟨rfl, rfl, ?_, by decide⟩
  have hval : F64.fin 1 + F64.fin ((2:ℤ) ^ 53) - F64.fin ((2:ℤ) ^ 53) = F64.fin 0 := by
    decide
  have hstep : Except.bind
      ((Matrix.mk 1 1 [F64.fin 1]).clone.add (Matrix.mk 1 1 [F64.fin (2 ^ 53)]))
      (fun r => r.subtract (Matrix.mk 1 1 [F64.fin (2 ^ 53)])) =
      Except.ok (Matrix.mk 1 1 [F64.fin 1 + F64.fin (2 ^ 53) - F64.fin (2 ^ 53)]) := rfl
  rw [hval] at hstep
  exact hstep

/-- C7 (amended): over binary64 doubles, cloning, adding a same-shape matrix
and subtracting it again restores every element exactly whenever every
element of the receiver is a finite representable double and every element
addition is exact, meaning its exact sum needs no rounding and does not
overflow; the unconditional claim fails, see the counterexample. -/
theorem add_subtract_roundtrip_exact (m a : Matrix F64) (hr : m.rows = a.rows)
    (hc : m.columns = a.columns)
    (hm : ∀ i, i < m.array.length → F64.finRep (m.array.getD i 0))
    (hs : ∀ i, i < m.array.length →
      F64.exactAdd (m.array.getD i 0) (a.array.getD i 0)) :
    Except.bind (m.clone.add a) (fun r => r.subtract a) = Except.ok m := by
  have hne : ¬ (m.rows ≠ a.rows ∨ m.columns ≠ a.columns) := by simp [hr, hc]
  have hclone : m.clone = m := rfl
  rw [hclone]
  have hadd : m.add a = Except.ok (⟨m.rows, m.columns,
      (List.range m.array.length).map fun i => m.array.getD i 0 + a.array.getD i 0⟩ :
        Matrix F64) := by
    simp only [Matrix.add, if_neg hne]
  rw [hadd]
  show (Matrix.mk m.rows m.columns
      ((List.range m.array.length).map fun i =>
        m.array.getD i 0 + a.array.getD i 0)).subtract a = Except.ok m
  have hlen : ((List.range m.array.length).map fun i =>
      m.array.getD i 0 + a.array.getD i 0).length = m.array.length := by simp
  simp only [Matrix.subtract, if_neg hne, hlen]
  have harr : ((List.range m.array.length).map fun i =>
      ((List.range m.array.length).map fun i =>
        m.array.getD i 0 + a.array.getD i 0).getD i 0 - a.array.getD i 0) = m.array := by
    have hpt : ∀ i ∈ List.range m.array.length,
        (((List.range m.array.length).map fun i =>
          m.array.getD i 0 + a.array.getD i 0).getD i 0 - a.array.getD i 0) =
        m.array.getD i 0 := by
      intro i hi
      rw [List.mem_range] at hi
      rw [getD_map_range _ i _ 0 hi]
      exact F64_roundtrip_elem _ _ (hm i hi) (hs i hi)
    rw [List.map_congr_left hpt]
    exact map_getD_range_self m.array 0
  rw [harr]

/-- C7 (amended) witness: the receiver holds the double 2^(-1074) (scaled
integer 1) and the argument the double 2^(-1073) (scaled integer 2); the
exact sum, 3 scaled units, is representable without rounding, and the
round-trip restores the receiver. -/
theorem add_subtract_roundtrip_exact_witness :
    (Matrix.mk 1 1 [F64.fin 1]).rows = (Matrix.mk 1 1 [F64.fin 2]).rows ∧
    (Matrix.mk 1 1 [F64.fin 1]).columns = (Matrix.mk 1 1 [F64.fin 2]).columns ∧
    (∀ i, i < (Matrix.mk 1 1 [F64.fin 1]).array.length →
      F64.finRep ((Matrix.mk 1 1 [F64.fin 1]).array.getD i 0)) ∧
    (∀ i, i < (Matrix.mk 1 1 [F64.fin 1]).array.length →
      F64.exactAdd ((Matrix.mk 1 1 [F64.fin 1]).array.getD i 0)
        ((Matrix.mk 1 1 [F64.fin 2]).array.getD i 0)) ∧
    Except.bind ((Matrix.mk 1 1 [F64.fin 1]).clone.add (Matrix.mk 1 1 [F64.fin 2]))
      (fun r => r.subtract (Matrix.mk 1 1 [F64.fin 2])) =
      Except.ok (Matrix.mk 1 1 [F64.fin 1]) := by
  have hfin : ∀ i, i < (Matrix.mk 1 1 [F64.fin 1]).array.length →
      F64.finRep ((Matrix.mk 1 1 [F64.fin 1]).array.getD i 0) := by
    intro i hi
    have h0 : i = 0 := Nat.lt_one_iff.mp hi
    subst h0
    show roundSig 1 = 1 ∧ |(1:ℤ)| ≤ ((((1 <<< 53) - 1) * (1 <<< 2045) : ℕ) : ℤ)
    exact ⟨by decide, by decide⟩
  have hex : ∀ i, i < (Matrix.mk 1 1 [F64.fin 1]).array.length →
      F64.exactAdd ((Matrix.mk 1 1 [F64.fin 1]).array.getD i 0)
        ((Matrix.mk 1 1 [F64.fin 2]).array.getD i 0) := by
    intro i hi
    have h0 : i = 0 := Nat.lt_one_iff.mp hi
    subst h0
    show roundSig (1 + 2) = 1 + 2 ∧ |(1:ℤ) + 2| < ((1 <<< 2098 : ℕ) : ℤ)
    exact ⟨by decide, by decide⟩
  exact ⟨rfl, rfl, hfin, hex,
    add_subtract_roundtrip_exact _ _ rfl rfl hfin hex⟩

/-- C9: `multiplyByScalar(0)` replaces every element `x` by `x * 0` under the
IEEE 754 rule for multiplication by zero: every finite element becomes zero
regardless of prior contents, and NaN and the two infinities become NaN. -/
theorem multiplyByScalar_zero_spec (m : Matrix JsFloat) (i : ℕ) (x : JsFloat)
    (hx : m.array[i]? = some x) :
    (m.multiplyByScalar (JsFloat.fin 0)).array[i]? = some (x * JsFloat.fin 0) ∧
    x * JsFloat.fin 0 = (match x with
      | JsFloat.fin _ => JsFloat.fin 0
      | _ => JsFloat.nan) := by
  constructor
  · show (m.array.map fun y => y * JsFloat.fin 0)[i]? = some (x * JsFloat.fin 0)
    rw [List.getElem?_map, hx]
    rfl
  · cases x with
    | fin q =>
        show JsFloat.mul (JsFloat.fin q) (JsFloat.fin 0) = JsFloat.fin 0
        simp [JsFloat.mul]
    | nan => rfl
    | inf =>
        show JsFloat.mul JsFloat.inf (JsFloat.fin 0) = JsFloat.nan
        simp [JsFloat.mul]
    | neginf =>
        show JsFloat.mul JsFloat.neginf (JsFloat.fin 0) = JsFloat.nan
        simp [JsFloat.mul]

/-- C9 witness: on the buffer `[NaN, Infinity, 5]`, the element at flat index 1
(positive infinity) becomes NaN under `multiplyByScalar(0)`. -/
theorem multiplyByScalar_zero_spec_witness :
    (Matrix.mk 1 3 [JsFloat.nan, JsFloat.inf, JsFloat.fin 5]).array[1]? = some JsFloat.inf ∧
    (((Matrix.mk 1 3 [JsFloat.nan, JsFloat.inf, JsFloat.fin 5]).multiplyByScalar
        (JsFloat.fin 0)).array[1]? = some (JsFloat.inf * JsFloat.fin 0) ∧
      JsFloat.inf * JsFloat.fin 0 = (match JsFloat.inf with
        | JsFloat.fin _ => JsFloat.fin 0
        | _ => JsFloat.nan)) :=
  ⟨rfl, multiplyByScalar_zero_spec
    (Matrix.mk 1 3 [JsFloat.nan, JsFloat.inf, JsFloat.fin 5]) 1 JsFloat.inf rfl⟩

/-- C10: the in-place element transforms `map`, `randomize` and
`multiplyByScalar` always keep the rows and columns fields, and `add`,
`subtract` and `hadamardProduct` keep them whenever they succeed. -/
theorem shape_preservation_spec (m a : Matrix ℚ) (f : ℚ → ℕ → List ℚ → ℚ)
    (rnd : ℕ → ℚ) (s : ℚ) :
    ((Matrix.map f m).rows = m.rows ∧ (Matrix.map f m).columns = m.columns) ∧
    ((Matrix.randomize rnd m).rows = m.rows ∧ (Matrix.randomize rnd m).columns = m.columns) ∧
    ((m.multiplyByScalar s).rows = m.rows ∧ (m.multiplyByScalar s).columns = m.columns) ∧
    (∀ x, m.add a = Except.ok x → x.rows = m.rows ∧ x.columns = m.columns) ∧
    (∀ x, m.subtract a = Except.ok x → x.rows = m.rows ∧ x.columns = m.columns) ∧
    (∀ x, m.hadamardProduct a = Except.ok x → x.rows = m.rows ∧ x.columns = m.columns) := by
  refine ⟨⟨rfl, rfl⟩, ⟨rfl, rfl⟩, ⟨rfl, rfl⟩, ?_, ?_, ?_⟩
  · intro x h
    by_cases hcond : (m.rows ≠ a.rows ∨ m.columns ≠ a.columns)
    · simp only [Matrix.add, if_pos hcond] at h
      exact Except.noConfusion h
    · simp only [Matrix.add, if_neg hcond] at h
      injection h with h2
      subst h2
      exact ⟨rfl, rfl⟩
  · intro x h
    by_cases hcond : (m.rows ≠ a.rows ∨ m.columns ≠ a.columns)
    · simp only [Matrix.subtract, if_pos hcond] at h
      exact Except.noConfusion h
    · simp only [Matrix.subtract, if_neg hcond] at h
      injection h with h2
      subst h2
      exact ⟨rfl, rfl⟩
  · intro x h
    by_cases hcond : (m.rows ≠ a.rows ∨ m.columns ≠ a.columns)
    · simp only [Matrix.hadamardProduct, if_pos hcond] at h
      exact Except.noConfusion h
    · simp only [Matrix.hadamardProduct, if_neg hcond] at h
      injection h with h2
      subst h2
      exact ⟨rfl, rfl⟩

/-- C10 witness: the transforms at the 1 by 1 zero matrix, with the success
hypotheses of `add`, `subtract` and `hadamardProduct` discharged by
evaluation. -/
theorem shape_preservation_spec_witness :
    ((Matrix.map (fun x _ _ => x + 1) (Matrix.new ℚ 1 1)).rows = (Matrix.new ℚ 1 1).rows ∧
      (Matrix.map (fun x _ _ => x + 1) (Matrix.new ℚ 1 1)).columns =
        (Matrix.new ℚ 1 1).columns) ∧
    ((Matrix.randomize (fun i => (i : ℚ)) (Matrix.new ℚ 1 1)).rows = (Matrix.new ℚ 1 1).rows ∧
      (Matrix.randomize (fun i => (i : ℚ)) (Matrix.new ℚ 1 1)).columns =
        (Matrix.new ℚ 1 1).columns) ∧
    (((Matrix.new ℚ 1 1).multiplyByScalar 2).rows = (Matrix.new ℚ 1 1).rows ∧
      ((Matrix.new ℚ 1 1).multiplyByScalar 2).columns = (Matrix.new ℚ 1 1).columns) ∧
    ((Matrix.mk 1 1 [(0:ℚ)]).rows = (Matrix.new ℚ 1 1).rows ∧
      (Matrix.mk 1 1 [(0:ℚ)]).columns = (Matrix.new ℚ 1 1).columns) ∧
    ((Matrix.mk 1 1 [(0:ℚ)]).rows = (Matrix.new ℚ 1 1).rows ∧
      (Matrix.mk 1 1 [(0:ℚ)]).columns = (Matrix.new ℚ 1 1).columns) ∧
    ((Matrix.mk 1 1 [(0:ℚ)]).rows = (Matrix.new ℚ 1 1).rows ∧
      (Matrix.mk 1 1 [(0:ℚ)]).columns = (Matrix.new ℚ 1 1).columns) :=
  ⟨(shape_preservation_spec (Matrix.new ℚ 1 1) (Matrix.new ℚ 1 1)
      (fun x _ _ => x + 1) (fun i => (i : ℚ)) 2).1,
    (shape_preservation_spec (Matrix.new ℚ 1 1) (Matrix.new ℚ 1 1)
      (fun x _ _ => x + 1) (fun i => (i : ℚ)) 2).2.1,
    (shape_preservation_spec (Matrix.new ℚ 1 1) (Matrix.new ℚ 1 1)
      (fun x _ _ => x + 1) (fun i => (i : ℚ)) 2).2.2.1,
    (shape_preservation_spec (Matrix.new ℚ 1 1) (Matrix.new ℚ 1 1)
      (fun x _ _ => x + 1) (fun i => (i : ℚ)) 2).2.2.2.1 (Matrix.mk 1 1 [(0:ℚ)])
      (by simp [Matrix.new, Matrix.add]),
    (shape_preservation_spec (Matrix.new ℚ 1 1) (Matrix.new ℚ 1 1)
      (fun x _ _ => x + 1) (fun i => (i : ℚ)) 2).2.2.2.2.1 (Matrix.mk 1 1 [(0:ℚ)])
      (by simp [Matrix.new, Matrix.subtract]),
    (shape_preservation_spec (Matrix.new ℚ 1 1) (Matrix.new ℚ 1 1)
      (fun x _ _ => x + 1) (fun i => (i : ℚ)) 2).2.2.2.2.2 (Matrix.mk 1 1 [(0:ℚ)])
      (by simp [Matrix.new, Matrix.hadamardProduct])⟩

/-- C8 evaluation: the raw-array branch of `set` on a length-mismatched source
completes (the source only logs a console warning), mutates the matrix, and
leaves the buffer length different from `rows * columns`, against both the
invariant of the data model and the documented throw of the method: a 1 by 1
matrix set from the two-element array `[1, 2]` ends with a buffer of length 2
while `rows * columns = 1`. -/
theorem set_raw_length_mismatch_accepted :
    ((Matrix.new ℚ 1 1).setList [1, 2]).array.length ≠
      ((Matrix.new ℚ 1 1).setList [1, 2]).rows *
        ((Matrix.new ℚ 1 1).setList [1, 2]).columns ∧
    (Matrix.new ℚ 1 1).setList [1, 2] ≠ Matrix.new ℚ 1 1 :=
  ⟨by decide, by decide⟩

end TSMatrix
